import Mathlib

/-!
Verification of the qshell batched work-flow engine (`iqshell/common/flow`).

The definitions below are a shallow embedding of `Flow.Start`, `Info.Check` and
`Flow.Check` from the flow package, together with the small data model they use
(`WorkInfo`, `WorkRecord`, `CodeError`, and the `Skipper` / `Overseer` / `Redo` /
`AutoLimit` / `EventListener` capabilities).  Goroutine side effects are made
explicit: the producer returns the list of listener events it fires and the list
of batches it sends on the work channel; a consumer returns the ordered trace of
actions it performs (Overseer.WorkDone calls, listener events, and AutoLimit
calls).  The model is of a single-consumer run (WorkerCount = 1) in which the
external interrupt flag is never raised; cross-goroutine interleaving is out of
scope of the shallow embedding.
-/

set_option autoImplicit false

namespace QFlow

/-- Modelled from the spec: `data.CodeError` (package `iqshell/common/data`, not under
src/) — a structured error with a numeric `Code` and a human `Desc`. -/
structure CodeError where
  code : Int
  desc : String
deriving DecidableEq

/-- Modelled from the spec: `data.ErrorCodeParamMissing` (not under src/), the
provider-level recoverable item-error code.  Its numeric value is opaque to the
engine; only its distinctness from other codes matters. -/
def ErrorCodeParamMissing : Int := -10001

/-- Modelled from the spec: `data.ErrorCodeAlreadyDone` (not under src/), the code
synthesised by the engine when the overseer reports a prior completion. -/
def ErrorCodeAlreadyDone : Int := -10002

/-- Modelled from the spec: the Go call `err.Error()` on a `*data.CodeError` (not under
src/); yields the human description, and the empty string on a nil receiver (the Go
nil-receiver convention). -/
def errorText : Option CodeError → String
  | none => ""
  | some e => e.desc

/-- Modelled from the spec: `alert.CannotEmptyError` (not under src/): the configuration
error returned for a missing required field.  Only its non-nilness matters. -/
def cannotEmptyError (name : String) : CodeError :=
  ⟨-1, name ++ " can not be empty"⟩

/-- Modelled from the spec: a work `Result` implements `IsValid()`.  We model a non-nil
result as a tagged value carrying its validity bit. -/
structure FlowResult where
  tag : Nat
  valid : Bool
deriving DecidableEq

/-- The Go test `record.Result == nil || !record.Result.IsValid()` on a nilable result. -/
def resultMissingOrInvalid : Option FlowResult → Bool
  | none => true
  | some r => !r.valid

/-- Modelled from the spec: a unit of work.  `data` is the raw textual line, `work` the
opaque domain payload, which may be absent (a nil `Work` field). -/
structure WorkInfo where
  data : String
  work : Option Nat
deriving DecidableEq

/-- Modelled from the spec: the outcome of one unit of work: the `WorkInfo` it belongs
to, an optional `Result` and an optional `Err`. -/
structure WorkRecord where
  workInfo : WorkInfo
  result : Option FlowResult
  err : Option CodeError
deriving DecidableEq

/-- A listener callback observed during a run (`EventListener.OnWorkSkip`,
`OnWorkFail`, `OnWorkSuccess`).  The `WorkInfo` argument of skip and fail is optional
because the provider error path can pass a nil workInfo through. -/
inductive Event where
  | onWorkSkip (w : Option WorkInfo) (res : Option FlowResult) (e : Option CodeError)
  | onWorkFail (w : Option WorkInfo) (e : Option CodeError)
  | onWorkSuccess (w : WorkInfo) (res : Option FlowResult)
deriving DecidableEq

/-- Go struct `flow.Info` (part_000 lines 12-16): Force, WorkerCount, StopWhenWorkError.
`DoWorkInfoListMaxCount` is NOT a field of `Info`; it lives on `Flow`. -/
structure Info where
  force : Bool
  workerCount : Int
  stopWhenWorkError : Bool
deriving DecidableEq

/-- Method `Info.Check` (part_000 lines 18-23): clamps `WorkerCount` to at least 1 in place and
always returns a nil error. -/
def Info.check (i : Info) : Info × Option CodeError :=
  (if i.workerCount < 1 then { i with workerCount := 1 } else i, none)

/-- Modelled from the spec: `Skipper.ShouldSkip(work) → (skip, cause)` (interface not
under src/). -/
structure Skipper where
  shouldSkip : WorkInfo → Bool × Option CodeError

/-- Modelled from the spec: `Overseer.GetWorkRecordIfHasDone(work) → (done, record)`
(interface not under src/).  The pair is collapsed into an option: `some record` means
done with that prior record, `none` means not done. -/
structure Overseer where
  getWorkRecordIfHasDone : WorkInfo → Option WorkRecord

/-- Modelled from the spec: `Redo.ShouldRedo(work, priorRecord) → (redo, cause)`
(interface not under src/). -/
structure Redo where
  shouldRedo : WorkInfo → WorkRecord → Bool × Option CodeError

/-- Modelled from the spec: the classification half of `AutoLimit` (interface not under
src/).  `Acquire` / `Release` / `AddLimitCount` calls are recorded in the consumer's
action trace; the engine only computes with `IsLimitError`. -/
structure AutoLimit where
  isLimitError : Int → Option CodeError → Bool

/-- Modelled from the spec: the `WillWork` hook of `EventListener` (struct not under
src/); a nil hook behaves as `fun _ => (true, none)`.  The `On*` hooks are the observed
events of the run. -/
structure EventListener where
  willWork : WorkInfo → Bool × Option CodeError

/-- Go struct `flow.Flow` (part_000 lines 25-37).  The two providers are kept as presence flags
plus per-run behaviour supplied separately: the `WorkProvider`'s outputs are a list of
`Provide()` results, the `WorkerProvider`'s output is an optional worker function. -/
structure Flow where
  info : Info
  hasWorkProvider : Bool
  hasWorkerProvider : Bool
  doWorkInfoListMaxCount : Int
  limit : Option AutoLimit
  eventListener : EventListener
  overseer : Option Overseer
  skipper : Option Skipper
  redo : Option Redo

/-- Method `Flow.Check` (part_000 lines 39-56): runs `Info.Check`, requires both providers,
then clamps `DoWorkInfoListMaxCount` to at least 1. -/
def Flow.check (f : Flow) : Flow × Option CodeError :=
  let ic := Info.check f.info
  match ic.2 with
  | some e => ({ f with info := ic.1 }, some e)
  | none =>
    let f1 : Flow := { f with info := ic.1 }
    if !f1.hasWorkProvider then (f1, some (cannotEmptyError ("WorkProvider")))
    else if !f1.hasWorkerProvider then (f1, some (cannotEmptyError ("WorkerProvider")))
    else if f1.doWorkInfoListMaxCount < 1 then
      ({ f1 with doWorkInfoListMaxCount := 1 }, none)
    else (f1, none)

/-- What a call of `Info.Check()` does to a whole `Flow` value: `Info.Check` receives
`&f.Info` (part_000 line 40) and can only mutate `Info` fields. -/
def applyInfoCheck (f : Flow) : Flow :=
  { f with info := (Info.check f.info).1 }

/-- The result of the admission filter for one `WorkInfo` with a non-nil `Work`
(part_000 lines 101-138): either one `OnWorkSkip` event fires and the item is dropped,
or the item passes all checks. -/
inductive AdmitResult where
  | skipped (ev : Event)
  | admitted
deriving DecidableEq

/-- Admission step 3 (part_000 lines 134-138): `EventListener.WillWork`. -/
def admitWillWork (f : Flow) (w : WorkInfo) : AdmitResult :=
  let r := f.eventListener.willWork w
  if !r.1 then .skipped (.onWorkSkip (some w) none r.2) else .admitted

/-- Admission step 2 (part_000 lines 109-132): the Overseer / Redo pair, falling through
to the `WillWork` gate. -/
def admitOverseer (f : Flow) (w : WorkInfo) : AdmitResult :=
  match f.overseer with
  | none => admitWillWork f w
  | some ov =>
    match ov.getWorkRecordIfHasDone w with
    | none => admitWillWork f w
    | some workRecord =>
      match f.redo with
      | none =>
        .skipped (.onWorkSkip (some w) workRecord.result
          (some ⟨ErrorCodeAlreadyDone, errorText workRecord.err⟩))
      | some redo =>
        let r := redo.shouldRedo w workRecord
        if !r.1 then
          let cause0 : CodeError :=
            match r.2 with
            | none => ⟨ErrorCodeAlreadyDone, "already done"⟩
            | some c => c
          .skipped (.onWorkSkip (some w) workRecord.result
            (some { cause0 with code := ErrorCodeAlreadyDone }))
        else
          admitWillWork f w

/-- The whole admission filter (part_000 lines 101-138), Skipper first. -/
def admitWork (f : Flow) (w : WorkInfo) : AdmitResult :=
  match f.skipper with
  | none => admitOverseer f w
  | some sk =>
    let r := sk.shouldSkip w
    if r.1 then .skipped (.onWorkSkip (some w) none r.2) else admitOverseer f w

/-- One result of `WorkProvider.Provide()` (signature from the spec; the provider
interface is not under src/): `(hasMore, workInfo?, err?)`. -/
structure ProvideResult where
  hasMore : Bool
  workInfo : Option WorkInfo
  err : Option CodeError
deriving DecidableEq

/-- What one iteration of the producer loop (part_000 lines 82-145) does with one
`Provide()` result: fire events and continue, append the work to the buffer, or break
out of the loop. -/
inductive StepOut where
  | emit (evs : List Event)
  | enqueue (w : WorkInfo)
  | stop
deriving DecidableEq

/-- One iteration of the producer loop (part_000 lines 82-145), excluding the buffer
bookkeeping.  A provider error is mapped by code (lines 84-91); a nil workInfo or nil
Work breaks the loop when `hasMore` is false and is ignored otherwise (lines 93-99);
otherwise the admission filter runs. -/
def producerStep (f : Flow) (pr : ProvideResult) : StepOut :=
  match pr.err with
  | some e =>
    if e.code = ErrorCodeParamMissing then .emit [.onWorkSkip pr.workInfo none (some e)]
    else .emit [.onWorkFail pr.workInfo (some e)]
  | none =>
    match pr.workInfo with
    | none => if !pr.hasMore then .stop else .emit []
    | some w =>
      match w.work with
      | none => if !pr.hasMore then .stop else .emit []
      | some _ =>
        match admitWork f w with
        | .skipped ev => .emit [ev]
        | .admitted => .enqueue w

/-- The producer goroutine (part_000 lines 78-153): consumes `Provide()` results until
the stream-end break (or until the supplied list is exhausted, which models an
exhausted provider) and returns the events it fires together with the batches it sends
on the work channel, in order.  A full buffer is sent as soon as its length reaches
`DoWorkInfoListMaxCount` (lines 141-144); a non-empty partial buffer is flushed at the
end (lines 147-149). -/
def producerRun (f : Flow) : List ProvideResult → List WorkInfo → List Event × List (List WorkInfo)
  | [], workList => ([], if 0 < workList.length then [workList] else [])
  | pr :: rest, workList =>
    match producerStep f pr with
    | .stop => ([], if 0 < workList.length then [workList] else [])
    | .emit evs =>
      let out := producerRun f rest workList
      (evs ++ out.1, out.2)
    | .enqueue w =>
      let workList1 := workList ++ [w]
      if f.doWorkInfoListMaxCount ≤ (workList1.length : Int) then
        let out := producerRun f rest []
        (out.1, workList1 :: out.2)
      else
        producerRun f rest workList1

/-- A call recorded against the `AutoLimit`, or the throttle sleep (part_000 lines
172-174 and 221-228). -/
inductive LimitCall where
  | acquire (n : Int)
  | release (n : Int)
  | addLimitCount (delta : Int)
  | sleepMs (ms : Nat)
deriving DecidableEq

/-- One observable action of a consumer, in trace order: an `Overseer.WorkDone` call, a
listener event, or an `AutoLimit` interaction. -/
inductive Action where
  | workDone (r : WorkRecord)
  | fire (e : Event)
  | limitOp (c : LimitCall)
deriving DecidableEq

/-- Modelled from the spec: `Worker.DoWork(works) → (records, err)`; a worker is the
function from a batch to its records and batch-level error (interface not under src/). -/
def WorkerFn : Type :=
  List WorkInfo → List WorkRecord × Option CodeError

/-- The fallback assignment in the record loop (part_000 lines 211-214): a record with
no valid Result and no Err of its own receives the batch-level error as its Err. -/
def applyFallback (workErr : Option CodeError) (r : WorkRecord) : WorkRecord :=
  if resultMissingOrInvalid r.result && r.err.isNone then { r with err := workErr } else r

/-- Closure `resultHandler` (part_000 lines 183-200): record the outcome with the Overseer when
one is supplied (a fresh `WorkRecord` value with the same fields, lines 185-189), then
dispatch `OnWorkFail` when `Err != nil` and `OnWorkSuccess` otherwise. -/
def resultHandler (hasOverseer : Bool) (r : WorkRecord) : List Action :=
  (if hasOverseer then [.workDone ⟨r.workInfo, r.result, r.err⟩] else []) ++
    (match r.err with
     | some e => [.fire (.onWorkFail (some r.workInfo) (some e))]
     | none => [.fire (.onWorkSuccess r.workInfo r.result)])

/-- Closure `isHitLimit` (part_000 lines 202-208): false without a limiter, otherwise
`Limit.IsLimitError(0, record.Err)`. -/
def isHitLimit (f : Flow) (r : WorkRecord) : Bool :=
  match f.limit with
  | none => false
  | some l => l.isLimitError 0 r.err

/-- Result of the record loop (part_000 lines 210-219): its action trace, the number of
limit hits, and whether any record failed (which sets `workErrorHappened`). -/
structure RecordsOut where
  actions : List Action
  hitLimitCount : Int
  errorHappened : Bool
deriving DecidableEq

/-- The record loop (part_000 lines 210-219): apply the fallback, run `resultHandler`,
and count limit hits, in positional order. -/
def processRecords (f : Flow) (workErr : Option CodeError) : List WorkRecord → RecordsOut
  | [] => ⟨[], 0, false⟩
  | r :: rs =>
    let r1 := applyFallback workErr r
    let out := processRecords f workErr rs
    ⟨resultHandler f.overseer.isSome r1 ++ out.actions,
     (if isHitLimit f r1 then 1 else 0) + out.hitLimitCount,
     r1.err.isSome || out.errorHappened⟩

/-- How one batch iteration of the consumer loop ends: `broke` models the break at
part_000 lines 178-181 (empty record list together with a non-nil batch error);
`finished` carries whether `workErrorHappened` was set by this batch. -/
inductive BatchOutcome where
  | broke
  | finished (errorHappened : Bool)
deriving DecidableEq

/-- Action trace and outcome of one batch iteration. -/
structure BatchOut where
  actions : List Action
  outcome : BatchOutcome
deriving DecidableEq

/-- One iteration of the consumer loop body (part_000 lines 172-228) on one batch:
`Acquire` (lines 172-174), `DoWork` (line 177), the empty-records break (lines
178-181), the record loop (lines 210-219), then `Release` and, if any limit hit,
`AddLimitCount(-hitLimitCount)` and a 1500 ms sleep (lines 221-228). -/
def processBatch (f : Flow) (worker : WorkerFn) (workList : List WorkInfo) : BatchOut :=
  let acq : List Action :=
    match f.limit with
    | none => []
    | some _ => [.limitOp (.acquire (workList.length : Int))]
  let res := worker workList
  if res.1.isEmpty && res.2.isSome then
    ⟨acq, .broke⟩
  else
    let recs := processRecords f res.2 res.1
    let post : List Action :=
      match f.limit with
      | none => []
      | some _ =>
        [.limitOp (.release (workList.length : Int))] ++
          (if 0 < recs.hitLimitCount then
            [.limitOp (.addLimitCount (-1 * recs.hitLimitCount)), .limitOp (.sleepMs 1500)]
          else [])
    ⟨acq ++ recs.actions ++ post, .finished recs.errorHappened⟩

/-- Result of a consumer's whole loop: its trace, the final `workErrorHappened` flag,
and whether it drained every batch it was offered. -/
structure ConsumerOut where
  actions : List Action
  errorFlag : Bool
  drained : Bool
deriving DecidableEq

/-- One consumer goroutine's loop over the batch channel (part_000 lines 167-234) for a
run in which the external interrupt flag is never raised.  After each finished batch the
loop stops when `workErrorHappened && StopWhenWorkError` (lines 230-233). -/
def consumerRun (f : Flow) (worker : WorkerFn) : List (List WorkInfo) → Bool → ConsumerOut
  | [], flag => ⟨[], flag, true⟩
  | b :: bs, flag =>
    let out := processBatch f worker b
    match out.outcome with
    | .broke => ⟨out.actions, flag, false⟩
    | .finished errHap =>
      let flag1 := flag || errHap
      if flag1 && f.info.stopWhenWorkError then ⟨out.actions, flag1, false⟩
      else
        let rest := consumerRun f worker bs flag1
        ⟨out.actions ++ rest.actions, rest.errorFlag, rest.drained⟩

/-- The listener events inside an action trace, in order. -/
def eventsOf (acts : List Action) : List Event :=
  acts.filterMap fun a =>
    match a with
    | .fire e => some e
    | _ => none

/-- All listener events of a single-consumer run (`WorkerCount = 1`) with no external
interrupt: the producer's events together with the consumer's. -/
def flowRunEvents (f : Flow) (worker : WorkerFn) (prs : List ProvideResult) : List Event :=
  let prod := producerRun f prs []
  prod.1 ++ eventsOf (consumerRun f worker prod.2 false).actions

/-- Whether an event is a terminal listener event for the given `WorkInfo`. -/
def isTerminalFor (w : WorkInfo) : Event → Bool
  | .onWorkSkip w' _ _ => decide (w' = some w)
  | .onWorkFail w' _ => decide (w' = some w)
  | .onWorkSuccess w' _ => decide (w' = w)

/-- How many terminal events an event list holds for the given `WorkInfo`. -/
def terminalCount (w : WorkInfo) (evs : List Event) : Nat :=
  (evs.filter (isTerminalFor w)).length

/-- One consumer goroutine (part_000 lines 159-238), including worker construction:
when `WorkerProvider.Provide` errors the goroutine returns at once (lines 162-165)
without executing `wait.Done()`, which stands at line 236 after the loop.  Returns the
action trace together with whether `wait.Done()` was executed. -/
def consumerGoroutine (f : Flow) (construction : Option WorkerFn)
    (batches : List (List WorkInfo)) : List Action × Bool :=
  match construction with
  | none => ([], false)
  | some worker => ((consumerRun f worker batches false).actions, true)

/-- How many of the consumer goroutines execute `wait.Done()`, given each consumer's
worker-construction result. -/
def doneCalls (f : Flow) (constructions : List (Option WorkerFn))
    (batches : List (List WorkInfo)) : Nat :=
  (constructions.filter fun c => (consumerGoroutine f c batches).2).length

/-- Call `wait.Wait()` (part_000 line 240) returns — and control reaches the
`FlowWillEndFunc` call at lines 242-247 — exactly when the WaitGroup counter,
incremented by `WorkerCount` at line 157, has been decremented `WorkerCount` times by
`wait.Done()`. -/
def flowStartReturns (f : Flow) (constructions : List (Option WorkerFn))
    (batches : List (List WorkInfo)) : Prop :=
  (doneCalls f constructions batches : Int) = f.info.workerCount

/-- A concrete engine configuration used by the witnesses: one worker, batch size 2, no
optional components, a `WillWork` hook that always continues. -/
def baseFlow : Flow :=
  { info := { force := true, workerCount := 1, stopWhenWorkError := false },
    hasWorkProvider := true, hasWorkerProvider := true,
    doWorkInfoListMaxCount := 2, limit := none,
    eventListener := ⟨fun _ => (true, none)⟩,
    overseer := none, skipper := none, redo := none }

/-- A configuration whose `WorkerCount` and `DoWorkInfoListMaxCount` are both out of
range. -/
def zeroFlow : Flow :=
  { baseFlow with
    info := { force := true, workerCount := 0, stopWhenWorkError := false },
    doWorkInfoListMaxCount := 0 }

/-- The work is not skipped by the Skipper (or there is none): the admission filter
reaches the Overseer check. -/
def skipperPasses (f : Flow) (w : WorkInfo) : Prop :=
  ∀ sk, f.skipper = some sk → (sk.shouldSkip w).1 = false

/-- The Overseer stage lets the work fall through: whenever an Overseer is present and
reports a prior record, a Redo is present and decides to redo. -/
def overseerPasses (f : Flow) (w : WorkInfo) : Prop :=
  ∀ ov, f.overseer = some ov → ∀ rec, ov.getWorkRecordIfHasDone w = some rec →
    ∃ redo, f.redo = some redo ∧ (redo.shouldRedo w rec).1 = true

/-- The events one producer iteration fires. -/
def stepEvents (f : Flow) (pr : ProvideResult) : List Event :=
  match producerStep f pr with
  | .emit evs => evs
  | _ => []

/-- The works the producer admits into batches, in order, over the processed prefix of
the provide results. -/
def producedWorks (f : Flow) : List ProvideResult → List WorkInfo
  | [] => []
  | pr :: rest =>
    match producerStep f pr with
    | .stop => []
    | .emit _ => producedWorks f rest
    | .enqueue w => w :: producedWorks f rest

/-- The events the producer fires, in order, over the processed prefix of the provide
results. -/
def producedEvents (f : Flow) : List ProvideResult → List Event
  | [] => []
  | pr :: rest =>
    match producerStep f pr with
    | .stop => []
    | .emit evs => evs ++ producedEvents f rest
    | .enqueue _ => producedEvents f rest

/-- The WorkInfos with a non-nil Work that the provider emits during the producer's
loop (the prefix of provide results consumed before the stream-end break). -/
def processedWorks : List ProvideResult → List WorkInfo
  | [] => []
  | pr :: rest =>
    match pr.err, pr.workInfo with
    | some _, some w => (if w.work.isSome then [w] else []) ++ processedWorks rest
    | some _, none => processedWorks rest
    | none, none => if !pr.hasMore then [] else processedWorks rest
    | none, some w =>
      match w.work with
      | none => if !pr.hasMore then [] else processedWorks rest
      | some _ => w :: processedWorks rest

/-- The `DoWork` contract of spec §4.2 on one batch: the records are positionally
aligned with the batch (in particular of the same length). -/
def alignedOn (worker : WorkerFn) (b : List WorkInfo) : Prop :=
  ((worker b).1).map WorkRecord.workInfo = b

/- Concrete values used by witnesses and counterexamples. -/

def w1 : WorkInfo := ⟨"line-1", some 1⟩

def w2 : WorkInfo := ⟨"line-2", some 2⟩

def w3 : WorkInfo := ⟨"line-3", some 3⟩

/-- The end-of-stream provide result `(false, nil, nil)`. -/
def endOfStream : ProvideResult := ⟨false, none, none⟩

/-- A provider stream: three good items, then end of stream. -/
def provides3 : List ProvideResult :=
  [⟨true, some w1, none⟩, ⟨true, some w2, none⟩, ⟨true, some w3, none⟩, endOfStream]

/-- A worker that succeeds on every item with a valid result. -/
def okWorker : WorkerFn := fun b => (b.map fun w => ⟨w, some ⟨0, true⟩, none⟩, none)

/-- A worker that returns an empty record list together with a batch error. -/
def brokenWorker : WorkerFn := fun _ => ([], some ⟨-500, "do work failed"⟩)

/-- A skipper configuration that skips everything with a fixed cause. -/
def skipAllFlow : Flow :=
  { baseFlow with skipper := some ⟨fun _ => (true, some ⟨-7, "too large"⟩)⟩ }

/-- A prior record for `w1` representing a recorded success (nil `Err`). -/
def priorRecord : WorkRecord := ⟨w1, some ⟨9, true⟩, none⟩

/-- A configuration whose overseer reports `w1` as already done, with no Redo. -/
def doneFlow : Flow :=
  { baseFlow with overseer := some ⟨fun w => if w = w1 then some priorRecord else none⟩ }

/-- A limiter that classifies error code -573 as a limit error. -/
def limit573 : AutoLimit :=
  ⟨fun _ e =>
    match e with
    | some c => decide (c.code = -573)
    | none => false⟩

/-- Configuration `baseFlow` with the `limit573` limiter installed. -/
def limitFlow : Flow := { baseFlow with limit := some limit573 }

/-- A worker that fails every item with the limit error -573. -/
def limitWorker : WorkerFn :=
  fun b => (b.map fun w => ⟨w, none, some ⟨-573, "limited"⟩⟩, none)

/-- Whether an action is an `AddLimitCount` call. -/
def isAddCall : Action → Bool
  | .limitOp (.addLimitCount _) => true
  | _ => false

/-- Whether an action is a `Release` call. -/
def isReleaseCall : Action → Bool
  | .limitOp (.release _) => true
  | _ => false

/-- Number of `AddLimitCount` calls in a trace. -/
def countAddCalls (acts : List Action) : Nat :=
  (acts.filter isAddCall).length

/-- Number of `Release` calls in a trace. -/
def countReleaseCalls (acts : List Action) : Nat :=
  (acts.filter isReleaseCall).length

/-- Occurrences of a `WorkInfo` in a list. -/
def occCount (w : WorkInfo) (l : List WorkInfo) : Nat :=
  (l.filter fun x => decide (x = w)).length

/- ------------------------------------------------------------------------------
Theorems.
------------------------------------------------------------------------------ -/

theorem infoCheck_err (i : Info) : (Info.check i).2 = none := rfl

theorem infoCheck_workerCount (i : Info) : 1 ≤ ((Info.check i).1).workerCount := by
  simp only [Info.check]
  by_cases h : i.workerCount < 1
  · simp [h]
  · simp [h]; omega

theorem infoCheck_idem (i : Info) : Info.check (Info.check i).1 = Info.check i := by
  simp only [Info.check]
  by_cases h : i.workerCount < 1
  · simp [h]
  · simp [h]

theorem flowCheck_eq (f : Flow) :
    Flow.check f =
      (if !f.hasWorkProvider then
        ({ f with info := (Info.check f.info).1 }, some (cannotEmptyError ("WorkProvider")))
      else if !f.hasWorkerProvider then
        ({ f with info := (Info.check f.info).1 }, some (cannotEmptyError ("WorkerProvider")))
      else if f.doWorkInfoListMaxCount < 1 then
        ({ f with info := (Info.check f.info).1, doWorkInfoListMaxCount := 1 }, none)
      else ({ f with info := (Info.check f.info).1 }, none)) := rfl

theorem flowCheck_result (f : Flow) (hp : f.hasWorkProvider = true)
    (hq : f.hasWorkerProvider = true) :
    Flow.check f =
      ({ f with
          info := (Info.check f.info).1
          doWorkInfoListMaxCount :=
            if f.doWorkInfoListMaxCount < 1 then 1 else f.doWorkInfoListMaxCount }, none) := by
  rw [flowCheck_eq]
  by_cases hm : f.doWorkInfoListMaxCount < 1 <;> simp [hp, hq, hm]

theorem flowCheck_props (f : Flow) (h : (Flow.check f).2 = none) :
    Flow.check (Flow.check f).1 = Flow.check f ∧
    1 ≤ ((Flow.check f).1).info.workerCount ∧
    1 ≤ ((Flow.check f).1).doWorkInfoListMaxCount := by
  have hp : f.hasWorkProvider = true := by
    cases hp : f.hasWorkProvider
    · rw [flowCheck_eq] at h; simp [hp] at h
    · rfl
  have hq : f.hasWorkerProvider = true := by
    cases hq : f.hasWorkerProvider
    · rw [flowCheck_eq] at h; simp [hp, hq] at h
    · rfl
  have h1 : (Info.check ((Info.check f.info).1)).1 = (Info.check f.info).1 :=
    congrArg Prod.fst (infoCheck_idem f.info)
  refine ⟨?_, ?_, ?_⟩
  · rw [flowCheck_result f hp hq]
    have h2 := flowCheck_result
      { f with
        info := (Info.check f.info).1
        doWorkInfoListMaxCount :=
          if f.doWorkInfoListMaxCount < 1 then 1 else f.doWorkInfoListMaxCount }
      hp hq
    dsimp only
    rw [h2]
    by_cases hm : f.doWorkInfoListMaxCount < 1 <;> simp [hm, h1]
  · rw [flowCheck_result f hp hq]
    exact infoCheck_workerCount f.info
  · rw [flowCheck_result f hp hq]
    by_cases hm : f.doWorkInfoListMaxCount < 1
    · simp [hm]
    · simp [hm]; omega

/-- C4 — corrected: `Info.Check()` is idempotent and clamps `WorkerCount` to at least 1
(always returning a nil error), but `DoWorkInfoListMaxCount` is not a field of `Info`
and `Info.Check` leaves it untouched; it is `Flow.Check` — which calls `Info.Check` and
then checks the providers — that clamps `DoWorkInfoListMaxCount` to at least 1, and
`Flow.Check` is likewise idempotent on configurations it accepts. -/
theorem c4_check_clamps (i : Info) (f : Flow) (h : (Flow.check f).2 = none) :
    Info.check (Info.check i).1 = Info.check i ∧
    (Info.check i).2 = none ∧
    1 ≤ ((Info.check i).1).workerCount ∧
    Flow.check (Flow.check f).1 = Flow.check f ∧
    1 ≤ ((Flow.check f).1).info.workerCount ∧
    1 ≤ ((Flow.check f).1).doWorkInfoListMaxCount := by
  obtain ⟨h1, h2, h3⟩ := flowCheck_props f h
  exact ⟨infoCheck_idem i, infoCheck_err i, infoCheck_workerCount i, h1, h2, h3⟩

/-- Witness for C4's amended statement at a concrete configuration. -/
theorem c4_check_clamps_witness :
    (Flow.check zeroFlow).2 = none ∧
    (Info.check (Info.check ⟨true, 0, false⟩).1 = Info.check ⟨true, 0, false⟩ ∧
     (Info.check (⟨true, 0, false⟩ : Info)).2 = none ∧
     1 ≤ ((Info.check (⟨true, 0, false⟩ : Info)).1).workerCount ∧
     Flow.check (Flow.check zeroFlow).1 = Flow.check zeroFlow ∧
     1 ≤ ((Flow.check zeroFlow).1).info.workerCount ∧
     1 ≤ ((Flow.check zeroFlow).1).doWorkInfoListMaxCount) :=
  ⟨rfl, c4_check_clamps ⟨true, 0, false⟩ zeroFlow rfl⟩

/-- C4 — counterexample to the claim as stated: on a configuration whose
`DoWorkInfoListMaxCount` is 0, running `Info.Check()` repairs `WorkerCount` but leaves
`DoWorkInfoListMaxCount` at 0, so after `Info.Check()` returns it is not at least 1. -/
theorem c4_counterexample :
    1 ≤ (applyInfoCheck zeroFlow).info.workerCount ∧
    ¬ 1 ≤ (applyInfoCheck zeroFlow).doWorkInfoListMaxCount := by decide

theorem admitWork_of_passes (f : Flow) (w : WorkInfo) (h : skipperPasses f w) :
    admitWork f w = admitOverseer f w := by
  unfold admitWork
  rcases hs : f.skipper with _ | sk <;> simp only [hs]
  simp [h sk hs]

theorem admitOverseer_of_passes (f : Flow) (w : WorkInfo) (h : overseerPasses f w) :
    admitOverseer f w = admitWillWork f w := by
  unfold admitOverseer
  rcases ho : f.overseer with _ | ov <;> simp only [ho]
  rcases hr : ov.getWorkRecordIfHasDone w with _ | rec <;> simp only [hr]
  obtain ⟨redo, hredo, htrue⟩ := h ov ho rec hr
  simp [hredo, htrue]

theorem admitWillWork_skipped_shape (f : Flow) (w : WorkInfo) (ev : Event)
    (h : admitWillWork f w = .skipped ev) :
    ev = .onWorkSkip (some w) none (f.eventListener.willWork w).2 := by
  unfold admitWillWork at h
  by_cases hb : (f.eventListener.willWork w).1 <;> simp [hb] at h
  exact h.symm

theorem admitOverseer_skipped_shape (f : Flow) (w : WorkInfo) (ev : Event)
    (h : admitOverseer f w = .skipped ev) :
    ∃ res c, ev = .onWorkSkip (some w) res c := by
  unfold admitOverseer at h
  rcases ho : f.overseer with _ | ov <;> simp only [ho] at h
  · exact ⟨none, _, admitWillWork_skipped_shape f w ev h⟩
  · rcases hr : ov.getWorkRecordIfHasDone w with _ | rec <;> simp only [hr] at h
    · exact ⟨none, _, admitWillWork_skipped_shape f w ev h⟩
    · rcases hred : f.redo with _ | redo <;> simp only [hred] at h
      · injection h with h1
        exact ⟨rec.result, _, h1.symm⟩
      · by_cases hb : (redo.shouldRedo w rec).1 <;> simp only [hb, Bool.not_true,
          Bool.not_false, if_true, if_false] at h
        · exact ⟨none, _, admitWillWork_skipped_shape f w ev h⟩
        · injection h with h1
          exact ⟨rec.result, _, h1.symm⟩

theorem admitWork_skipped_shape (f : Flow) (w : WorkInfo) (ev : Event)
    (h : admitWork f w = .skipped ev) :
    ∃ res c, ev = .onWorkSkip (some w) res c := by
  unfold admitWork at h
  rcases hs : f.skipper with _ | sk <;> simp only [hs] at h
  · exact admitOverseer_skipped_shape f w ev h
  · by_cases hb : (sk.shouldSkip w).1 <;> simp only [hb, Bool.not_true, Bool.not_false,
      if_true, if_false] at h
    · injection h with h1
      exact ⟨none, _, h1.symm⟩
    · exact admitOverseer_skipped_shape f w ev h

theorem producerStep_enqueue (f : Flow) (pr : ProvideResult) (w : WorkInfo)
    (h : producerStep f pr = .enqueue w) : admitWork f w = .admitted := by
  unfold producerStep at h
  rcases hpe : pr.err with _ | e <;> simp only [hpe] at h
  · rcases hpw : pr.workInfo with _ | w' <;> simp only [hpw] at h
    · split at h <;> cases h
    · rcases hww : w'.work with _ | d <;> simp only [hww] at h
      · split at h <;> cases h
      · rcases ha : admitWork f w' with ev | _ <;> simp only [ha] at h
        · cases h
        · injection h with h1
          rw [← h1]
          exact ha
  · split at h <;> cases h

theorem producerStep_emit_le_one (f : Flow) (pr : ProvideResult) (evs : List Event)
    (h : producerStep f pr = .emit evs) : evs.length ≤ 1 := by
  unfold producerStep at h
  rcases hpe : pr.err with _ | e <;> simp only [hpe] at h
  · rcases hpw : pr.workInfo with _ | w' <;> simp only [hpw] at h
    · split at h
      · cases h
      · injection h with h1; subst h1; simp
    · rcases hww : w'.work with _ | d <;> simp only [hww] at h
      · split at h
        · cases h
        · injection h with h1; subst h1; simp
      · rcases ha : admitWork f w' with ev | _ <;> simp only [ha] at h
        · injection h with h1; subst h1; simp
        · cases h
  · split at h <;> (injection h with h1; subst h1; simp)

theorem mem_batch_admitted (f : Flow) :
    ∀ (prs : List ProvideResult) (acc b : List WorkInfo) (w : WorkInfo),
      b ∈ (producerRun f prs acc).2 → w ∈ b → w ∈ acc ∨ admitWork f w = .admitted := by
  intro prs
  induction prs with
  | nil =>
    intro acc b w hb hw
    left
    unfold producerRun at hb
    split at hb
    · exact (List.mem_singleton.mp hb) ▸ hw
    · simp at hb
  | cons pr rest ih =>
    intro acc b w hb hw
    unfold producerRun at hb
    rcases hstep : producerStep f pr with evs | w' | _ <;> simp only [hstep] at hb
    · exact ih acc b w hb hw
    · by_cases hfull : f.doWorkInfoListMaxCount ≤ ((acc ++ [w']).length : Int)
      · rw [if_pos hfull] at hb
        rcases List.mem_cons.mp hb with hb1 | hb1
        · rcases List.mem_append.mp (hb1 ▸ hw) with hw1 | hw1
          · exact Or.inl hw1
          · right
            have hww : w = w' := by simpa using hw1
            exact hww ▸ producerStep_enqueue f pr w' hstep
        · rcases ih [] b w hb1 hw with hc | hc
          · simp at hc
          · exact Or.inr hc
      · rw [if_neg hfull] at hb
        rcases ih (acc ++ [w']) b w hb hw with hc | hc
        · rcases List.mem_append.mp hc with h2 | h2
          · exact Or.inl h2
          · right
            have hww : w = w' := by simpa using h2
            exact hww ▸ producerStep_enqueue f pr w' hstep
        · exact Or.inr hc
    · left
      split at hb
      · exact (List.mem_singleton.mp hb) ▸ hw
      · simp at hb

/-- C3: when the Skipper stage lets the work through, the Overseer reports it done and
no Redo is supplied, the producer fires exactly the skip event
`OnWorkSkip(work, prior.Result, Error(AlreadyDone, prior.Err.Error()))` — whose
description is the prior record's `Err` text, the empty string for a nil prior `Err` —
and the work never appears in any dispatched batch. -/
theorem c3_already_done_skip (f : Flow) (w : WorkInfo) (ov : Overseer) (rec : WorkRecord)
    (hsk : skipperPasses f w) (hov : f.overseer = some ov)
    (hdone : ov.getWorkRecordIfHasDone w = some rec) (hredo : f.redo = none) :
    admitWork f w =
      .skipped (.onWorkSkip (some w) rec.result
        (some ⟨ErrorCodeAlreadyDone, errorText rec.err⟩)) ∧
    ∀ (prs : List ProvideResult) (b : List WorkInfo),
      b ∈ (producerRun f prs []).2 → w ∉ b := by
  have h1 : admitWork f w = admitOverseer f w := admitWork_of_passes f w hsk
  have h2 : admitOverseer f w =
      .skipped (.onWorkSkip (some w) rec.result
        (some ⟨ErrorCodeAlreadyDone, errorText rec.err⟩)) := by
    unfold admitOverseer
    simp only [hov, hdone, hredo]
  refine ⟨h1.trans h2, ?_⟩
  intro prs b hb hw
  rcases mem_batch_admitted f prs [] b w hb hw with hc | hc
  · simp at hc
  · rw [h1.trans h2] at hc
    cases hc

/-- Witness for C3 at a concrete configuration whose prior record is a recorded success
(nil `Err`, so the synthesized description is the empty string). -/
theorem c3_already_done_skip_witness :
    doneFlow.overseer = some ⟨fun w => if w = w1 then some priorRecord else none⟩ ∧
    doneFlow.redo = none ∧
    admitWork doneFlow w1 =
      .skipped (.onWorkSkip (some w1) priorRecord.result
        (some ⟨ErrorCodeAlreadyDone, errorText priorRecord.err⟩)) :=
  ⟨rfl, rfl,
    (c3_already_done_skip doneFlow w1 ⟨fun w => if w = w1 then some priorRecord else none⟩
      priorRecord (fun sk h => Option.noConfusion h) rfl (by simp) rfl).1⟩

/-- C5: the admission filter is strict in its order — a skipping Skipper yields
`OnWorkSkip(work, nil, cause)` and stops; with Skipper and Overseer passed, a false
`WillWork` continue yields `OnWorkSkip(work, nil, err)` and stops; a work passing all
three checks is admitted; each producer iteration fires at most one event; and every
work appearing in a dispatched batch passed all the checks (a skipped item is never
dispatched). -/
theorem c5_admission_order (f : Flow) (w : WorkInfo) :
    (∀ sk, f.skipper = some sk → (sk.shouldSkip w).1 = true →
      admitWork f w = .skipped (.onWorkSkip (some w) none (sk.shouldSkip w).2)) ∧
    (skipperPasses f w → overseerPasses f w → (f.eventListener.willWork w).1 = false →
      admitWork f w = .skipped (.onWorkSkip (some w) none (f.eventListener.willWork w).2)) ∧
    (skipperPasses f w → overseerPasses f w → (f.eventListener.willWork w).1 = true →
      admitWork f w = .admitted) ∧
    (∀ pr : ProvideResult, (stepEvents f pr).length ≤ 1) ∧
    (∀ (prs : List ProvideResult) (b : List WorkInfo),
      b ∈ (producerRun f prs []).2 → w ∈ b → admitWork f w = .admitted) := by
  refine ⟨?_, ?_, ?_, ?_, ?_⟩
  · intro sk hs hskip
    unfold admitWork
    simp only [hs, hskip]
    simp
  · intro hsk hov hww
    rw [admitWork_of_passes f w hsk, admitOverseer_of_passes f w hov]
    unfold admitWillWork
    simp [hww]
  · intro hsk hov hww
    rw [admitWork_of_passes f w hsk, admitOverseer_of_passes f w hov]
    unfold admitWillWork
    simp [hww]
  · intro pr
    unfold stepEvents
    rcases h : producerStep f pr with evs | _ | _
    · exact producerStep_emit_le_one f pr evs h
    · simp
    · simp
  · intro prs b hb hw
    rcases mem_batch_admitted f prs [] b w hb hw with hc | hc
    · simp at hc
    · exact hc

/-- Witness for C5 at a concrete configuration: a Skipper that skips everything
produces exactly the skip event with its cause, and on the plain configuration a work
passing all checks is admitted. -/
theorem c5_admission_order_witness :
    skipAllFlow.skipper = some ⟨fun _ => (true, some ⟨-7, "too large"⟩)⟩ ∧
    admitWork skipAllFlow w1 =
      .skipped (.onWorkSkip (some w1) none (some ⟨-7, "too large"⟩)) ∧
    admitWork baseFlow w1 = .admitted :=
  ⟨rfl,
    (c5_admission_order skipAllFlow w1).1 ⟨fun _ => (true, some ⟨-7, "too large"⟩)⟩ rfl rfl,
    (c5_admission_order baseFlow w1).2.2.1 (fun _ h => Option.noConfusion h)
      (fun _ h => Option.noConfusion h) rfl⟩

theorem producerStep_err (f : Flow) (pr : ProvideResult) (e : CodeError)
    (he : pr.err = some e) :
    producerStep f pr =
      .emit (if e.code = ErrorCodeParamMissing then
        [Event.onWorkSkip pr.workInfo none (some e)]
      else [Event.onWorkFail pr.workInfo (some e)]) := by
  unfold producerStep
  simp only [he]
  by_cases hc : e.code = ErrorCodeParamMissing <;> simp [hc]

/-- C7: a non-nil provider error is non-terminal and mapped by code — the producer
fires `OnWorkSkip(workInfo, nil, err)` when `err.Code == ErrorCodeParamMissing` and
`OnWorkFail(workInfo, err)` otherwise, and then continues with the next provide result,
leaving the batch buffer untouched. -/
theorem c7_provider_item_errors (f : Flow) (pr : ProvideResult) (e : CodeError)
    (he : pr.err = some e) :
    producerStep f pr =
      .emit (if e.code = ErrorCodeParamMissing then
        [Event.onWorkSkip pr.workInfo none (some e)]
      else [Event.onWorkFail pr.workInfo (some e)]) ∧
    ∀ (rest : List ProvideResult) (acc : List WorkInfo),
      producerRun f (pr :: rest) acc =
        (stepEvents f pr ++ (producerRun f rest acc).1, (producerRun f rest acc).2) := by
  have h0 := producerStep_err f pr e he
  refine ⟨h0, ?_⟩
  intro rest acc
  have hev : stepEvents f pr =
      (if e.code = ErrorCodeParamMissing then
        [Event.onWorkSkip pr.workInfo none (some e)]
      else [Event.onWorkFail pr.workInfo (some e)]) := by
    unfold stepEvents
    rw [h0]
  simp only [producerRun, h0, hev]

/-- Witness for C7: a concrete `ParamMissing` provider error becomes a skip event. -/
theorem c7_provider_item_errors_witness :
    (⟨true, some w2, some ⟨ErrorCodeParamMissing, "missing"⟩⟩ : ProvideResult).err =
      some ⟨ErrorCodeParamMissing, "missing"⟩ ∧
    producerStep baseFlow ⟨true, some w2, some ⟨ErrorCodeParamMissing, "missing"⟩⟩ =
      .emit (if (ErrorCodeParamMissing : Int) = ErrorCodeParamMissing then
        [Event.onWorkSkip (some w2) none (some ⟨ErrorCodeParamMissing, "missing"⟩)]
      else [Event.onWorkFail (some w2) (some ⟨ErrorCodeParamMissing, "missing"⟩)]) :=
  ⟨rfl,
    (c7_provider_item_errors baseFlow ⟨true, some w2, some ⟨ErrorCodeParamMissing, "missing"⟩⟩
      ⟨ErrorCodeParamMissing, "missing"⟩ rfl).1⟩

theorem producer_batch_bounds (f : Flow) (hmax : 1 ≤ f.doWorkInfoListMaxCount) :
    ∀ (prs : List ProvideResult) (acc : List WorkInfo),
      (acc.length : Int) < f.doWorkInfoListMaxCount →
      ∀ b ∈ (producerRun f prs acc).2,
        0 < b.length ∧ (b.length : Int) ≤ f.doWorkInfoListMaxCount := by
  intro prs
  induction prs with
  | nil =>
    intro acc hacc b hb
    unfold producerRun at hb
    split at hb
    · next hpos =>
      rw [List.mem_singleton.mp hb]
      exact ⟨hpos, le_of_lt hacc⟩
    · simp at hb
  | cons pr rest ih =>
    intro acc hacc b hb
    unfold producerRun at hb
    rcases hstep : producerStep f pr with evs | w' | _ <;> simp only [hstep] at hb
    · exact ih acc hacc b hb
    · have hlen : ((acc ++ [w']).length : Int) = (acc.length : Int) + 1 := by
        simp
      by_cases hfull : f.doWorkInfoListMaxCount ≤ ((acc ++ [w']).length : Int)
      · rw [if_pos hfull] at hb
        rcases List.mem_cons.mp hb with hb1 | hb1
        · subst hb1
          refine ⟨by simp, ?_⟩
          rw [hlen]
          omega
        · exact ih [] (by simp only [List.length_nil, Int.natCast_zero]; omega) b hb1
      · rw [if_neg hfull] at hb
        exact ih (acc ++ [w']) (by omega) b hb
    · split at hb
      · next hpos =>
        rw [List.mem_singleton.mp hb]
        exact ⟨hpos, le_of_lt hacc⟩
      · simp at hb

/-- C9: with `DoWorkInfoListMaxCount ≥ 1` (as `Flow.Check` guarantees), every batch the
producer sends has between 1 and `DoWorkInfoListMaxCount` items; a batch is dispatched
as soon as the buffer reaches `DoWorkInfoListMaxCount`; and at producer end a non-empty
partial buffer is flushed as a final batch while an empty buffer is not sent. -/
theorem c9_batching_bounds (f : Flow) (prs : List ProvideResult)
    (hmax : 1 ≤ f.doWorkInfoListMaxCount) :
    (∀ b ∈ (producerRun f prs []).2,
      0 < b.length ∧ (b.length : Int) ≤ f.doWorkInfoListMaxCount) ∧
    (∀ acc : List WorkInfo,
      producerRun f [] acc = ([], if 0 < acc.length then [acc] else [])) ∧
    (∀ (pr : ProvideResult) (rest : List ProvideResult) (acc : List WorkInfo) (w : WorkInfo),
      producerStep f pr = .enqueue w →
      f.doWorkInfoListMaxCount ≤ ((acc ++ [w]).length : Int) →
      producerRun f (pr :: rest) acc =
        ((producerRun f rest []).1, (acc ++ [w]) :: (producerRun f rest []).2)) := by
  refine ⟨?_, ?_, ?_⟩
  · intro b hb
    exact producer_batch_bounds f hmax prs []
      (by simp only [List.length_nil, Int.natCast_zero]; omega) b hb
  · intro acc
    rfl
  · intro pr rest acc w hstep hfull
    simp only [producerRun, hstep, if_pos hfull]

/-- Witness for C9 on the concrete three-item stream with batch size 2. -/
theorem c9_batching_bounds_witness :
    (1 : Int) ≤ baseFlow.doWorkInfoListMaxCount ∧
    (∀ b ∈ (producerRun baseFlow provides3 []).2,
      0 < b.length ∧ (b.length : Int) ≤ baseFlow.doWorkInfoListMaxCount) :=
  ⟨by decide, (c9_batching_bounds baseFlow provides3 (by decide)).1⟩

theorem applyFallback_workInfo (we : Option CodeError) (r : WorkRecord) :
    (applyFallback we r).workInfo = r.workInfo := by
  unfold applyFallback
  split <;> rfl

theorem eventsOf_append (a b : List Action) :
    eventsOf (a ++ b) = eventsOf a ++ eventsOf b := by
  simp [eventsOf]

/-- C8: a record whose `Err` is nil and whose `Result` is nil or invalid receives the
batch-level error as its `Err` before dispatch, so the listener sees the batch error as
the record's error; a record that carries its own `Err` or a valid `Result` is left
unchanged by the fallback. -/
theorem c8_fallback_error (we : Option CodeError) (r : WorkRecord) (hasOv : Bool) :
    ((r.err = none ∧ resultMissingOrInvalid r.result = true) →
      applyFallback we r = { r with err := we } ∧
      ∀ e, we = some e →
        eventsOf (resultHandler hasOv (applyFallback we r)) =
          [Event.onWorkFail (some r.workInfo) (some e)]) ∧
    ((r.err.isSome = true ∨ resultMissingOrInvalid r.result = false) →
      applyFallback we r = r) := by
  constructor
  · rintro ⟨h1, h2⟩
    have hfb : applyFallback we r = { r with err := we } := by
      unfold applyFallback
      rw [h2, h1]
      simp
    refine ⟨hfb, ?_⟩
    intro e hee
    rw [hfb, hee]
    cases hasOv <;> simp [resultHandler, eventsOf]
  · intro h
    unfold applyFallback
    rcases h with h | h
    · rcases he : r.err with _ | e
      · rw [he] at h
        simp at h
      · simp [he]
    · simp [h]

/-- Witness for C8 on a record with nil `Err` and nil `Result` and a non-nil batch
error. -/
theorem c8_fallback_error_witness :
    ((⟨w1, none, none⟩ : WorkRecord).err = none ∧
      resultMissingOrInvalid (⟨w1, none, none⟩ : WorkRecord).result = true) ∧
    (applyFallback (some ⟨-9, "batch failed"⟩) ⟨w1, none, none⟩ =
      { (⟨w1, none, none⟩ : WorkRecord) with err := some ⟨-9, "batch failed"⟩ } ∧
      ∀ e, (some ⟨-9, "batch failed"⟩ : Option CodeError) = some e →
        eventsOf (resultHandler true (applyFallback (some ⟨-9, "batch failed"⟩) ⟨w1, none, none⟩)) =
          [Event.onWorkFail (some (⟨w1, none, none⟩ : WorkRecord).workInfo) (some e)]) :=
  ⟨⟨rfl, rfl⟩,
    (c8_fallback_error (some ⟨-9, "batch failed"⟩) ⟨w1, none, none⟩ true).1 ⟨rfl, rfl⟩⟩

/-- C10: the success/fail dispatch decision depends only on the record's `Err` after
the fallback — `OnWorkSuccess` fires exactly when `Err` is nil, whatever the `Result`
is; `Overseer.WorkDone` is invoked before the event fires; and a record with nil `Err`,
nil batch error and a nil-or-invalid `Result` is recorded via `WorkDone` and reported
via `OnWorkSuccess`. -/
theorem c10_success_iff_err_nil (f : Flow) (we : Option CodeError) (r : WorkRecord)
    (hasOv : Bool) :
    (r.err = none →
      eventsOf (resultHandler hasOv r) = [Event.onWorkSuccess r.workInfo r.result]) ∧
    (∀ e, r.err = some e →
      eventsOf (resultHandler hasOv r) = [Event.onWorkFail (some r.workInfo) (some e)]) ∧
    (resultHandler true r =
      Action.workDone ⟨r.workInfo, r.result, r.err⟩ :: resultHandler false r) ∧
    (r.err = none → we = none → f.overseer.isSome = true →
      (processRecords f we [r]).actions =
        [Action.workDone ⟨r.workInfo, r.result, none⟩,
         Action.fire (Event.onWorkSuccess r.workInfo r.result)]) := by
  refine ⟨?_, ?_, ?_, ?_⟩
  · intro h
    cases hasOv <;> simp [resultHandler, h, eventsOf]
  · intro e h
    cases hasOv <;> simp [resultHandler, h, eventsOf]
  · simp [resultHandler]
  · intro h1 h2 h3
    have hfb : applyFallback we r = r := by
      unfold applyFallback
      rw [h2]
      split
      · cases r
        simp_all
      · rfl
    simp [processRecords, hfb, h3, resultHandler, h1]

/-- Witness for C10 on a record with nil `Err` and nil `Result`, a nil batch error and
an overseer present. -/
theorem c10_success_iff_err_nil_witness :
    (⟨w1, none, none⟩ : WorkRecord).err = none ∧
    doneFlow.overseer.isSome = true ∧
    (processRecords doneFlow none [⟨w1, none, none⟩]).actions =
      [Action.workDone ⟨w1, none, none⟩,
       Action.fire (Event.onWorkSuccess w1 none)] :=
  ⟨rfl, rfl,
    (c10_success_iff_err_nil doneFlow none ⟨w1, none, none⟩ true).2.2.2 rfl rfl rfl⟩

theorem resultHandler_no_limitOp (hasOv : Bool) (r : WorkRecord) (c : LimitCall) :
    Action.limitOp c ∉ resultHandler hasOv r := by
  cases hasOv <;> rcases he : r.err with _ | e <;> simp [resultHandler, he]

theorem processRecords_no_limitOp (f : Flow) (we : Option CodeError) (c : LimitCall) :
    ∀ rs, Action.limitOp c ∉ (processRecords f we rs).actions := by
  intro rs
  induction rs with
  | nil => simp [processRecords]
  | cons r rs ih =>
    simp only [processRecords]
    intro h
    rcases List.mem_append.mp h with h1 | h1
    · exact resultHandler_no_limitOp _ _ c h1
    · exact ih h1

theorem processRecords_hit_count (f : Flow) (we : Option CodeError) :
    ∀ rs, (processRecords f we rs).hitLimitCount =
      (((rs.map (applyFallback we)).filter (isHitLimit f)).length : Int) := by
  intro rs
  induction rs with
  | nil => simp [processRecords]
  | cons r rs ih =>
    simp only [processRecords, List.map_cons, List.filter_cons]
    by_cases hhit : isHitLimit f (applyFallback we r) <;> simp [hhit, ih]
    omega

theorem processBatch_eq (f : Flow) (worker : WorkerFn) (b : List WorkInfo) (L : AutoLimit)
    (hL : f.limit = some L)
    (hok : ¬((worker b).1.isEmpty = true ∧ (worker b).2.isSome = true)) :
    processBatch f worker b =
      ⟨Action.limitOp (.acquire (b.length : Int)) ::
        ((processRecords f (worker b).2 (worker b).1).actions ++
          Action.limitOp (.release (b.length : Int)) ::
            (if 0 < (processRecords f (worker b).2 (worker b).1).hitLimitCount then
              [Action.limitOp (.addLimitCount
                (-1 * (processRecords f (worker b).2 (worker b).1).hitLimitCount)),
               Action.limitOp (.sleepMs 1500)]
            else [])),
       .finished (processRecords f (worker b).2 (worker b).1).errorHappened⟩ := by
  unfold processBatch
  simp only [hL]
  rw [if_neg (by rw [Bool.and_eq_true]; exact hok)]
  simp

/-- C6: on a batch whose `DoWork` result is processed (not the empty-records break),
with a limiter installed: `hitLimitCount` is exactly the number of records whose
post-fallback error the limiter classifies as a limit error; when it is positive the
trace holds exactly one `AddLimitCount` call, with argument `-hitLimitCount`, and the
1500 ms sleep, and the sleep is the last action of the batch (so it precedes anything
the consumer does next); when it is zero there is no `AddLimitCount` call and no sleep;
and `Release(len(batch))` is called exactly once in either case. -/
theorem c6_throttle_response (f : Flow) (worker : WorkerFn) (b : List WorkInfo)
    (L : AutoLimit) (hL : f.limit = some L)
    (hok : ¬((worker b).1.isEmpty = true ∧ (worker b).2.isSome = true)) :
    (processRecords f (worker b).2 (worker b).1).hitLimitCount =
      (((((worker b).1).map (applyFallback (worker b).2)).filter (isHitLimit f)).length : Int) ∧
    countAddCalls (processBatch f worker b).actions =
      (if 0 < (processRecords f (worker b).2 (worker b).1).hitLimitCount then 1 else 0) ∧
    (∀ d, Action.limitOp (.addLimitCount d) ∈ (processBatch f worker b).actions →
      d = -1 * (processRecords f (worker b).2 (worker b).1).hitLimitCount) ∧
    (Action.limitOp (.sleepMs 1500) ∈ (processBatch f worker b).actions ↔
      0 < (processRecords f (worker b).2 (worker b).1).hitLimitCount) ∧
    countReleaseCalls (processBatch f worker b).actions = 1 ∧
    (∀ n, Action.limitOp (.release n) ∈ (processBatch f worker b).actions →
      n = (b.length : Int)) ∧
    (0 < (processRecords f (worker b).2 (worker b).1).hitLimitCount →
      (processBatch f worker b).actions.getLast? = some (Action.limitOp (.sleepMs 1500))) := by
  have hadd : (processRecords f (worker b).2 (worker b).1).actions.filter isAddCall = [] := by
    rw [List.filter_eq_nil_iff]
    intro a ha hpa
    rcases a with r | e | c
    · simp [isAddCall] at hpa
    · simp [isAddCall] at hpa
    · exact processRecords_no_limitOp f (worker b).2 c (worker b).1 ha
  have hrel : (processRecords f (worker b).2 (worker b).1).actions.filter isReleaseCall = [] := by
    rw [List.filter_eq_nil_iff]
    intro a ha hpa
    rcases a with r | e | c
    · simp [isReleaseCall] at hpa
    · simp [isReleaseCall] at hpa
    · exact processRecords_no_limitOp f (worker b).2 c (worker b).1 ha
  rw [processBatch_eq f worker b L hL hok]
  refine ⟨processRecords_hit_count f (worker b).2 (worker b).1, ?_, ?_, ?_, ?_, ?_, ?_⟩
  · by_cases hKpos : 0 < (processRecords f (worker b).2 (worker b).1).hitLimitCount <;>
      simp [hKpos, countAddCalls, List.filter_append, hadd, isAddCall]
  · intro d hd
    simp only [List.mem_cons, List.mem_append] at hd
    rcases hd with hd | hd | hd | hd
    · simp at hd
    · exact absurd hd (processRecords_no_limitOp f (worker b).2 _ (worker b).1)
    · simp at hd
    · by_cases hKpos : 0 < (processRecords f (worker b).2 (worker b).1).hitLimitCount
      · rw [if_pos hKpos] at hd
        simp only [List.mem_cons] at hd
        rcases hd with hd | hd | hd
        · injection hd with h1
          injection h1 with h2
        · simp at hd
        · simp at hd
      · rw [if_neg hKpos] at hd
        simp at hd
  · constructor
    · intro hd
      simp only [List.mem_cons, List.mem_append] at hd
      rcases hd with hd | hd | hd | hd
      · simp at hd
      · exact absurd hd (processRecords_no_limitOp f (worker b).2 _ (worker b).1)
      · simp at hd
      · by_cases hKpos : 0 < (processRecords f (worker b).2 (worker b).1).hitLimitCount
        · exact hKpos
        · rw [if_neg hKpos] at hd
          simp at hd
    · intro hKpos
      simp [if_pos hKpos]
  · by_cases hKpos : 0 < (processRecords f (worker b).2 (worker b).1).hitLimitCount <;>
      simp [hKpos, countReleaseCalls, List.filter_append, hrel, isReleaseCall]
  · intro n hn
    simp only [List.mem_cons, List.mem_append] at hn
    rcases hn with hn | hn | hn | hn
    · simp at hn
    · exact absurd hn (processRecords_no_limitOp f (worker b).2 _ (worker b).1)
    · injection hn with h1
      injection h1 with h2
    · by_cases hKpos : 0 < (processRecords f (worker b).2 (worker b).1).hitLimitCount
      · rw [if_pos hKpos] at hn
        simp only [List.mem_cons] at hn
        rcases hn with hn | hn | hn
        · simp at hn
        · simp at hn
        · simp at hn
      · rw [if_neg hKpos] at hn
        simp at hn
  · intro hKpos
    rw [if_pos hKpos]
    dsimp only
    rw [show Action.limitOp (.acquire (b.length : Int)) ::
        ((processRecords f (worker b).2 (worker b).1).actions ++
          Action.limitOp (.release (b.length : Int)) ::
            [Action.limitOp (.addLimitCount
              (-1 * (processRecords f (worker b).2 (worker b).1).hitLimitCount)),
             Action.limitOp (.sleepMs 1500)]) =
      (Action.limitOp (.acquire (b.length : Int)) ::
        (processRecords f (worker b).2 (worker b).1).actions) ++
        Action.limitOp (.release (b.length : Int)) ::
          [Action.limitOp (.addLimitCount
            (-1 * (processRecords f (worker b).2 (worker b).1).hitLimitCount)),
           Action.limitOp (.sleepMs 1500)] from by simp]
    rw [List.getLast?_append_cons]
    rfl

/-- Witness for C6: a concrete batch where every record is a limit error. -/
theorem c6_throttle_response_witness :
    limitFlow.limit = some limit573 ∧
    ¬((limitWorker [w1, w2]).1.isEmpty = true ∧ (limitWorker [w1, w2]).2.isSome = true) ∧
    (countAddCalls (processBatch limitFlow limitWorker [w1, w2]).actions =
      (if 0 < (processRecords limitFlow (limitWorker [w1, w2]).2 (limitWorker [w1, w2]).1).hitLimitCount
       then 1 else 0)) :=
  ⟨rfl, by decide,
    (c6_throttle_response limitFlow limitWorker [w1, w2] limit573 rfl (by decide)).2.1⟩

theorem occCount_cons (w x : WorkInfo) (l : List WorkInfo) :
    occCount w (x :: l) = (if x = w then 1 else 0) + occCount w l := by
  by_cases hx : x = w <;> simp [occCount, List.filter_cons, hx, Nat.add_comm]

theorem occCount_append (w : WorkInfo) (a b : List WorkInfo) :
    occCount w (a ++ b) = occCount w a + occCount w b := by
  simp [occCount, List.filter_append]

theorem occCount_eq_zero (w : WorkInfo) (l : List WorkInfo) (h : w ∉ l) :
    occCount w l = 0 := by
  rw [occCount, List.length_eq_zero, List.filter_eq_nil_iff]
  intro a ha hpa
  rw [decide_eq_true_eq] at hpa
  exact h (hpa ▸ ha)

theorem occCount_nodup_mem (w : WorkInfo) :
    ∀ l : List WorkInfo, l.Nodup → w ∈ l → occCount w l = 1 := by
  intro l
  induction l with
  | nil => intro _ h; simp at h
  | cons x l ih =>
    intro hnd hm
    obtain ⟨hx, hnd1⟩ := List.nodup_cons.mp hnd
    rcases List.mem_cons.mp hm with h | h
    · subst h
      rw [occCount_cons, if_pos rfl, occCount_eq_zero w l hx]
    · have hxw : ¬(x = w) := fun hc => hx (hc ▸ h)
      rw [occCount_cons, if_neg hxw, ih hnd1 h]

theorem terminalCount_append (w : WorkInfo) (a b : List Event) :
    terminalCount w (a ++ b) = terminalCount w a + terminalCount w b := by
  simp [terminalCount, List.filter_append]

theorem terminalCount_cons (w : WorkInfo) (e : Event) (evs : List Event) :
    terminalCount w (e :: evs) =
      (if isTerminalFor w e then 1 else 0) + terminalCount w evs := by
  by_cases hp : isTerminalFor w e <;>
    simp [terminalCount, List.filter_cons, hp, Nat.add_comm]

theorem producer_batch_nonempty (f : Flow) :
    ∀ (prs : List ProvideResult) (acc b : List WorkInfo),
      b ∈ (producerRun f prs acc).2 → b ≠ [] := by
  intro prs
  induction prs with
  | nil =>
    intro acc b hb
    unfold producerRun at hb
    split at hb
    · next hpos =>
      rw [List.mem_singleton.mp hb]
      intro hcon
      rw [hcon] at hpos
      simp at hpos
    · simp at hb
  | cons pr rest ih =>
    intro acc b hb
    unfold producerRun at hb
    rcases hstep : producerStep f pr with evs | w' | _ <;> simp only [hstep] at hb
    · exact ih acc b hb
    · by_cases hfull : f.doWorkInfoListMaxCount ≤ ((acc ++ [w']).length : Int)
      · rw [if_pos hfull] at hb
        rcases List.mem_cons.mp hb with hb1 | hb1
        · subst hb1
          simp
        · exact ih [] b hb1
      · rw [if_neg hfull] at hb
        exact ih (acc ++ [w']) b hb
    · split at hb
      · next hpos =>
        rw [List.mem_singleton.mp hb]
        intro hcon
        rw [hcon] at hpos
        simp at hpos
      · simp at hb

theorem producer_events (f : Flow) :
    ∀ (prs : List ProvideResult) (acc : List WorkInfo),
      (producerRun f prs acc).1 = producedEvents f prs := by
  intro prs
  induction prs with
  | nil => intro acc; rfl
  | cons pr rest ih =>
    intro acc
    unfold producerRun producedEvents
    rcases hstep : producerStep f pr with evs | w' | _ <;> simp only [hstep]
    · simp [ih acc]
    · by_cases hfull : f.doWorkInfoListMaxCount ≤ ((acc ++ [w']).length : Int)
      · rw [if_pos hfull]
        simp [ih]
      · rw [if_neg hfull]
        simp [ih]

theorem producer_flatten (f : Flow) :
    ∀ (prs : List ProvideResult) (acc : List WorkInfo),
      ((producerRun f prs acc).2).flatten = acc ++ producedWorks f prs := by
  intro prs
  induction prs with
  | nil =>
    intro acc
    unfold producerRun producedWorks
    by_cases hpos : 0 < acc.length
    · simp [hpos]
    · have hnil : acc = [] := List.eq_nil_of_length_eq_zero (by omega)
      simp [hpos, hnil]
  | cons pr rest ih =>
    intro acc
    unfold producerRun producedWorks
    rcases hstep : producerStep f pr with evs | w' | _ <;> simp only [hstep]
    · simp [ih acc]
    · by_cases hfull : f.doWorkInfoListMaxCount ≤ ((acc ++ [w']).length : Int)
      · rw [if_pos hfull]
        simp [ih]
      · rw [if_neg hfull]
        simp [ih]
    · by_cases hpos : 0 < acc.length
      · simp [hpos]
      · have hnil : acc = [] := List.eq_nil_of_length_eq_zero (by omega)
        simp [hpos, hnil]

theorem processedWorks_work :
    ∀ (prs : List ProvideResult) (w : WorkInfo),
      w ∈ processedWorks prs → w.work.isSome = true := by
  intro prs
  induction prs with
  | nil =>
    intro w h
    simp [processedWorks] at h
  | cons pr rest ih =>
    intro w h
    unfold processedWorks at h
    rcases hpe : pr.err with _ | e <;> rcases hpw : pr.workInfo with _ | w0 <;>
      simp only [hpe, hpw] at h
    · split at h
      · simp at h
      · exact ih w h
    · rcases hww : w0.work with _ | d <;> simp only [hww] at h
      · split at h
        · simp at h
        · exact ih w h
      · rcases List.mem_cons.mp h with h1 | h1
        · rw [h1, hww]
          rfl
        · exact ih w h1
    · exact ih w h
    · rcases List.mem_append.mp h with h1 | h1
      · split at h1
        · next hsome =>
          rw [List.mem_singleton.mp h1]
          exact hsome
        · simp at h1
      · exact ih w h1

theorem producer_count (f : Flow) (w : WorkInfo) (hw : w.work.isSome = true) :
    ∀ prs : List ProvideResult,
      terminalCount w (producedEvents f prs) + occCount w (producedWorks f prs) =
        occCount w (processedWorks prs) := by
  intro prs
  induction prs with
  | nil => rfl
  | cons pr rest ih =>
    rcases hpe : pr.err with _ | e
    · rcases hpw : pr.workInfo with _ | w0
      · by_cases hm : pr.hasMore
        · have hstep : producerStep f pr = .emit [] := by
            unfold producerStep
            simp [hpe, hpw, hm]
          simp only [producedEvents, producedWorks, processedWorks, hstep, hpe, hpw, hm]
          simpa using ih
        · have hstep : producerStep f pr = .stop := by
            unfold producerStep
            simp [hpe, hpw, hm]
          simp only [producedEvents, producedWorks, processedWorks, hstep, hpe, hpw, hm]
          simp [terminalCount, occCount]
      · rcases hww : w0.work with _ | d
        · by_cases hm : pr.hasMore
          · have hstep : producerStep f pr = .emit [] := by
              unfold producerStep
              simp [hpe, hpw, hww, hm]
            simp only [producedEvents, producedWorks, processedWorks, hstep, hpe, hpw, hww, hm]
            simpa using ih
          · have hstep : producerStep f pr = .stop := by
              unfold producerStep
              simp [hpe, hpw, hww, hm]
            simp only [producedEvents, producedWorks, processedWorks, hstep, hpe, hpw, hww, hm]
            simp [terminalCount, occCount]
        · rcases ha : admitWork f w0 with ev | _
          · have hstep : producerStep f pr = .emit [ev] := by
              unfold producerStep
              simp [hpe, hpw, hww, ha]
            obtain ⟨res, c, hev⟩ := admitWork_skipped_shape f w0 ev ha
            simp only [producedEvents, producedWorks, processedWorks, hstep, hpe, hpw, hww]
            subst hev
            by_cases hw0 : w0 = w <;>
              simp only [List.singleton_append, terminalCount_cons, occCount_cons,
                isTerminalFor, hw0, Option.some.injEq, decide_eq_true_eq] <;>
              simp [hw0] <;> omega
          · have hstep : producerStep f pr = .enqueue w0 := by
              unfold producerStep
              simp [hpe, hpw, hww, ha]
            simp only [producedEvents, producedWorks, processedWorks, hstep, hpe, hpw, hww]
            by_cases hw0 : w0 = w <;> simp only [occCount_cons, hw0] <;> simp <;> omega
    · have hstep := producerStep_err f pr e hpe
      rcases hpw : pr.workInfo with _ | w0
      · simp only [producedEvents, producedWorks, processedWorks, hstep, hpe, hpw]
        by_cases hc : e.code = ErrorCodeParamMissing <;>
          simp only [hc, if_true, if_false] <;>
          simp [terminalCount_cons, isTerminalFor, ih]
      · simp only [producedEvents, producedWorks, processedWorks, hstep, hpe, hpw]
        by_cases hw0 : w0 = w
        · subst hw0
          by_cases hc : e.code = ErrorCodeParamMissing <;>
            simp [hc, terminalCount_cons, isTerminalFor, occCount_append, occCount_cons,
              hw, ih] <;>
            omega
        · by_cases hws : w0.work.isSome <;>
            by_cases hc : e.code = ErrorCodeParamMissing <;>
            simp [hc, hws, terminalCount_cons, isTerminalFor, occCount_append,
              occCount_cons, hw0, ih]

theorem resultHandler_terminal (hasOv : Bool) (r : WorkRecord) (w : WorkInfo) :
    terminalCount w (eventsOf (resultHandler hasOv r)) =
      if r.workInfo = w then 1 else 0 := by
  cases hasOv <;> rcases he : r.err with _ | e <;>
    by_cases hww : r.workInfo = w <;>
      simp [resultHandler, he, eventsOf, terminalCount, isTerminalFor, hww]

theorem processRecords_terminal (f : Flow) (we : Option CodeError) (w : WorkInfo) :
    ∀ rs, terminalCount w (eventsOf (processRecords f we rs).actions) =
      occCount w (rs.map WorkRecord.workInfo) := by
  intro rs
  induction rs with
  | nil => rfl
  | cons r rs ih =>
    simp only [processRecords, List.map_cons]
    rw [eventsOf_append, terminalCount_append, occCount_cons, ih,
      resultHandler_terminal, applyFallback_workInfo]

theorem processBatch_aligned (f : Flow) (worker : WorkerFn) (b : List WorkInfo)
    (w : WorkInfo) (halign : alignedOn worker b) (hne : b ≠ []) :
    (processBatch f worker b).outcome ≠ .broke ∧
    terminalCount w (eventsOf (processBatch f worker b).actions) = occCount w b := by
  have hrecne : (worker b).1 ≠ [] := by
    intro hcon
    rw [alignedOn, hcon] at halign
    exact hne halign.symm
  have hempty : (worker b).1.isEmpty = false := by
    rcases hrecs : (worker b).1 with _ | ⟨r, rs⟩
    · exact absurd hrecs hrecne
    · rfl
  unfold processBatch
  rw [if_neg (by simp [hempty])]
  have hterm : terminalCount w (eventsOf (processRecords f (worker b).2 (worker b).1).actions) =
      occCount w b := by
    rw [processRecords_terminal]
    rw [alignedOn] at halign
    rw [halign]
  rcases hL : f.limit with _ | L <;> simp only [hL]
  · constructor
    · simp
    · simp only [List.append_nil, List.nil_append]
      exact hterm
  · constructor
    · simp
    · rw [eventsOf_append, eventsOf_append]
      have h1 : eventsOf [Action.limitOp (.acquire (b.length : Int))] = [] := rfl
      have h2 : eventsOf ([Action.limitOp (.release (b.length : Int))] ++
          (if 0 < (processRecords f (worker b).2 (worker b).1).hitLimitCount then
            [Action.limitOp (.addLimitCount
              (-1 * (processRecords f (worker b).2 (worker b).1).hitLimitCount)),
             Action.limitOp (.sleepMs 1500)]
          else [])) = [] := by
        by_cases hKpos : 0 < (processRecords f (worker b).2 (worker b).1).hitLimitCount <;>
          simp [hKpos, eventsOf]
      rw [h1, h2, List.append_nil, List.nil_append, hterm]

theorem consumer_terminal_count (f : Flow) (worker : WorkerFn) (w : WorkInfo)
    (hstop : f.info.stopWhenWorkError = false)
    (halign : ∀ b, alignedOn worker b) :
    ∀ (batches : List (List WorkInfo)) (flag : Bool),
      (∀ b ∈ batches, b ≠ []) →
      terminalCount w (eventsOf (consumerRun f worker batches flag).actions) =
        occCount w batches.flatten := by
  intro batches
  induction batches with
  | nil =>
    intro flag _
    rfl
  | cons b bs ih =>
    intro flag hne
    obtain ⟨hnb, hter⟩ := processBatch_aligned f worker b w (halign b) (hne b (by simp))
    unfold consumerRun
    rcases hout : (processBatch f worker b).outcome with _ | errHap
    · exact absurd hout hnb
    · simp only [hout, hstop, Bool.and_false, Bool.false_eq_true, if_false]
      rw [List.flatten_cons, occCount_append, ← hter,
        ← ih (flag || errHap) (fun x hx => hne x (List.mem_cons_of_mem _ hx))]
      rw [eventsOf_append, terminalCount_append]

/-- C1 — amended: in a single-consumer run with no external interrupt, where
`StopWhenWorkError` is unset, the worker meets the DoWork alignment contract of §4.2
(so in particular no batch returns an empty record list with a non-nil batch error),
and the provider emits pairwise-distinct works, every `WorkInfo` emitted with a non-nil
`Work` receives exactly one terminal event among `OnWorkSuccess`, `OnWorkFail`,
`OnWorkSkip`.  Without the alignment assumption this fails: see the counterexample,
where `DoWork` returns an empty record list together with a non-nil error and the
batch's items receive no terminal event at all. -/
theorem c1_coverage_amended (f : Flow) (worker : WorkerFn) (prs : List ProvideResult)
    (w : WorkInfo)
    (hstop : f.info.stopWhenWorkError = false)
    (halign : ∀ b, alignedOn worker b)
    (hnodup : (processedWorks prs).Nodup)
    (hmem : w ∈ processedWorks prs) :
    terminalCount w (flowRunEvents f worker prs) = 1 := by
  have hw : w.work.isSome = true := processedWorks_work prs w hmem
  unfold flowRunEvents
  rw [terminalCount_append, producer_events]
  rw [consumer_terminal_count f worker w hstop halign _ false
    (fun b hb => producer_batch_nonempty f prs [] b hb)]
  rw [producer_flatten]
  simp only [List.nil_append]
  have h3 := producer_count f w hw prs
  have h4 : occCount w (processedWorks prs) = 1 := occCount_nodup_mem w _ hnodup hmem
  omega

/-- C1 — counterexample to the claim as stated: a run in which the single item `w1`
(non-nil `Work`) is admitted and dispatched, `Worker.DoWork` returns an empty record
list together with a non-nil batch error, the interrupt flag is never raised — and no
terminal event at all fires for `w1`. -/
theorem c1_counterexample :
    w1.work.isSome = true ∧
    w1 ∈ processedWorks [⟨true, some w1, none⟩, endOfStream] ∧
    w1 ∈ ((producerRun baseFlow [⟨true, some w1, none⟩, endOfStream] []).2).flatten ∧
    terminalCount w1
      (flowRunEvents baseFlow brokenWorker [⟨true, some w1, none⟩, endOfStream]) = 0 := by
  decide

/-- Witness for C1's amended statement: a three-item stream, batch size 2, an aligned
worker that succeeds on everything — each emitted work gets exactly one terminal
event. -/
theorem c1_coverage_amended_witness :
    baseFlow.info.stopWhenWorkError = false ∧
    (processedWorks provides3).Nodup ∧
    w2 ∈ processedWorks provides3 ∧
    terminalCount w2 (flowRunEvents baseFlow okWorker provides3) = 1 :=
  ⟨rfl, by decide, by decide,
    c1_coverage_amended baseFlow okWorker provides3 w2 rfl
      (fun b => by simp [alignedOn, okWorker, List.map_map, Function.comp_def]) (by decide) (by decide)⟩

/-- C2 — the code contradicts the claim: a consumer whose worker construction fails
returns at once (part_000 line 164) without executing `wait.Done()`, which stands only
at line 236 after the loop; with `WorkerCount = 1` and a failing `WorkerProvider` no
`Done` call is ever made, so the WaitGroup counter never reaches zero, `wait.Wait()`
(line 240) never returns, `Flow.Start` does not complete and `FlowWillEndFunc` (line
242) is never reached.  With a successful construction the same consumer does call
`Done` and the flow completes. -/
theorem c2_construction_error_hangs_flow :
    consumerGoroutine baseFlow none [] = ([], false) ∧
    doneCalls baseFlow [none] [] = 0 ∧
    baseFlow.info.workerCount = 1 ∧
    ¬ flowStartReturns baseFlow [none] [] ∧
    flowStartReturns baseFlow [some okWorker] [] := by
  refine ⟨rfl, rfl, rfl, ?_, ?_⟩
  · intro h
    exact absurd (show (0 : Int) = 1 from h) (by decide)
  · show ((1 : Nat) : Int) = 1
    rfl

end QFlow
